import Mathlib

/-!
Verification of the displacement-field core of `fast-liquid-glass`
(`src/core.ts`, class `LiquidGlassCore`).

The numeric model: JavaScript numbers are embedded as exact rationals
together with the IEEE special values `NaN`, `+Infinity`, `-Infinity`
(type `JVal`).  Operations that can produce or propagate special values
(division, `Math.min`, `Math.max`, `+`, `-`, `*`, the `Uint8ClampedArray`
store) are modelled on `JVal`; code paths that provably stay finite are
modelled directly on `ℚ`.  The default fragment shader uses `Math.sqrt`,
so it is embedded over `ℝ`.
-/

/-- A JavaScript number: a finite (exact, rational-valued) number, `NaN`,
`+Infinity`, or `-Infinity`. -/
inductive JVal where
  | num (q : ℚ)
  | nan
  | posInf
  | negInf
deriving DecidableEq

namespace JVal

/-- Whether a JS value is a finite number. -/
def isFinite : JVal → Bool
  | num _ => true
  | _ => false

end JVal

/-- JS division of two finite numbers: `x / 0` is `NaN` when `x = 0`
and `±Infinity` otherwise (the sign of the zero denominator is `+0`
everywhere it arises in this code). -/
def jdivQ (x y : ℚ) : JVal :=
  if y = 0 then
    if x = 0 then .nan else if 0 < x then .posInf else .negInf
  else .num (x / y)

/-- `Math.min` on two JS values: `NaN` propagates. -/
def jmin : JVal → JVal → JVal
  | .nan, _ => .nan
  | _, .nan => .nan
  | .num p, .num q => .num (min p q)
  | .negInf, _ => .negInf
  | _, .negInf => .negInf
  | .num p, .posInf => .num p
  | .posInf, .num q => .num q
  | .posInf, .posInf => .posInf

/-- `Math.max` on two JS values: `NaN` propagates. -/
def jmax : JVal → JVal → JVal
  | .nan, _ => .nan
  | _, .nan => .nan
  | .num p, .num q => .num (max p q)
  | .posInf, _ => .posInf
  | _, .posInf => .posInf
  | .num p, .negInf => .num p
  | .negInf, .num q => .num q
  | .negInf, .negInf => .negInf

/-- JS addition on JS values. -/
def jadd : JVal → JVal → JVal
  | .nan, _ => .nan
  | _, .nan => .nan
  | .num p, .num q => .num (p + q)
  | .num _, .posInf => .posInf
  | .num _, .negInf => .negInf
  | .posInf, .num _ => .posInf
  | .negInf, .num _ => .negInf
  | .posInf, .posInf => .posInf
  | .posInf, .negInf => .nan
  | .negInf, .posInf => .nan
  | .negInf, .negInf => .negInf

/-- JS subtraction on JS values. -/
def jsub : JVal → JVal → JVal
  | .nan, _ => .nan
  | _, .nan => .nan
  | .num p, .num q => .num (p - q)
  | .num _, .posInf => .negInf
  | .num _, .negInf => .posInf
  | .posInf, .num _ => .posInf
  | .negInf, .num _ => .negInf
  | .posInf, .posInf => .nan
  | .posInf, .negInf => .posInf
  | .negInf, .posInf => .negInf
  | .negInf, .negInf => .nan

/-- JS multiplication on JS values: `0 * ±Infinity` is `NaN`. -/
def jmul : JVal → JVal → JVal
  | .nan, _ => .nan
  | _, .nan => .nan
  | .num p, .num q => .num (p * q)
  | .num p, .posInf => if p = 0 then .nan else if 0 < p then .posInf else .negInf
  | .num p, .negInf => if p = 0 then .nan else if 0 < p then .negInf else .posInf
  | .posInf, .num q => if q = 0 then .nan else if 0 < q then .posInf else .negInf
  | .negInf, .num q => if q = 0 then .nan else if 0 < q then .negInf else .posInf
  | .posInf, .posInf => .posInf
  | .posInf, .negInf => .negInf
  | .negInf, .posInf => .negInf
  | .negInf, .negInf => .posInf

/-- `smoothStep` from `core.ts`, on the JS-number model:
`t = Math.max(0, Math.min(1, (t - a) / (b - a)))`, result `t*t*(3-2*t)`.
The arguments are finite (every call site passes finite numbers); the
result can be `NaN` because the division `(t-a)/(b-a)` is unguarded. -/
def smoothStep (a b t : ℚ) : JVal :=
  let u := jmax (.num 0) (jmin (.num 1) (jdivQ (t - a) (b - a)))
  jmul (jmul u u) (jsub (.num 3) (jmul (.num 2) u))

/-- Finite-valued form of `smoothStep`, defined for `a ≠ b` (the division
cannot hit a zero denominator there); shown below to agree with
`smoothStep`. -/
def ssQ (a b t : ℚ) : ℚ :=
  let u := max 0 (min 1 ((t - a) / (b - a)))
  u * u * (3 - 2 * u)

theorem smoothStep_eq_ssQ (a b t : ℚ) (hab : a ≠ b) :
    smoothStep a b t = .num (ssQ a b t) := by
  have hba : b - a ≠ 0 := sub_ne_zero.mpr (Ne.symm hab)
  simp only [smoothStep, ssQ, jdivQ, if_neg hba, jmin, jmax, jmul, jsub]

theorem ssQ_mono (a b : ℚ) (hab : a < b) {t₁ t₂ : ℚ} (h : t₁ ≤ t₂) :
    ssQ a b t₁ ≤ ssQ a b t₂ := by
  have hba : (0:ℚ) < b - a := sub_pos.mpr hab
  set x := max 0 (min 1 ((t₁ - a) / (b - a))) with hx
  set y := max 0 (min 1 ((t₂ - a) / (b - a))) with hy
  have hx0 : 0 ≤ x := le_max_left _ _
  have hx1 : x ≤ 1 := by
    rw [hx]
    exact max_le (by norm_num) (min_le_left _ _)
  have hy0 : 0 ≤ y := le_max_left _ _
  have hy1 : y ≤ 1 := by
    rw [hy]
    exact max_le (by norm_num) (min_le_left _ _)
  have hxy : x ≤ y := by
    rw [hx, hy]
    have : (t₁ - a) / (b - a) ≤ (t₂ - a) / (b - a) :=
      div_le_div_of_nonneg_right (by linarith) (le_of_lt hba) |>.trans_eq rfl
    exact max_le_max le_rfl (min_le_min le_rfl this)
  show x * x * (3 - 2 * x) ≤ y * y * (3 - 2 * y)
  nlinarith [mul_nonneg (mul_nonneg hx0 (sub_nonneg.mpr hx1)) (sub_nonneg.mpr hy1),
    mul_nonneg hx0 (sub_nonneg.mpr hx1), mul_nonneg hy0 (sub_nonneg.mpr hy1),
    mul_nonneg (sub_nonneg.mpr hxy) (mul_nonneg hx0 hy0),
    mul_nonneg (mul_nonneg (sub_nonneg.mpr hxy) hx0) (sub_nonneg.mpr hy1),
    mul_nonneg (mul_nonneg (sub_nonneg.mpr hxy) hy0) (sub_nonneg.mpr hx1)]

theorem ssQ_of_le_left (a b t : ℚ) (hab : a < b) (ht : t ≤ a) :
    ssQ a b t = 0 := by
  have hba : (0:ℚ) < b - a := sub_pos.mpr hab
  have hdiv : (t - a) / (b - a) ≤ 0 :=
    div_nonpos_of_nonpos_of_nonneg (by linarith) (le_of_lt hba)
  have hmin : min 1 ((t - a) / (b - a)) ≤ 0 := le_trans (min_le_right _ _) hdiv
  have : max 0 (min 1 ((t - a) / (b - a))) = 0 := max_eq_left hmin
  simp [ssQ, this]

theorem ssQ_of_ge_right (a b t : ℚ) (hab : a < b) (ht : b ≤ t) :
    ssQ a b t = 1 := by
  have hba : (0:ℚ) < b - a := sub_pos.mpr hab
  have hdiv : (1:ℚ) ≤ (t - a) / (b - a) := by
    rw [le_div_iff₀ hba]
    linarith
  have hmin : min 1 ((t - a) / (b - a)) = 1 := min_eq_left hdiv
  have : max 0 (min 1 ((t - a) / (b - a))) = 1 := by rw [hmin]; norm_num
  rw [ssQ, this]
  norm_num

/-- C2 (amended): with `edge0 = edge1` the division in `smoothStep` is not
guarded.  At `t = edge0` it is `0/0 = NaN` and the `NaN` propagates out;
for `t ≠ edge0` the division is `±Infinity` but the `min`/`max` clamp
turns it into the finite values `1` resp. `0`, so no Infinity escapes. -/
theorem smoothStep_degenerate (a t : ℚ) :
    smoothStep a a t =
      if t = a then .nan else if t < a then .num 0 else .num 1 := by
  rcases lt_trichotomy t a with h | h | h
  · have hne : ¬ t - a = 0 := sub_ne_zero.mpr (ne_of_lt h)
    have hnp : ¬ (0:ℚ) < t - a := by simp [sub_pos]; linarith
    simp only [smoothStep, jdivQ, sub_self, if_pos rfl, if_neg hne, if_neg hnp,
      jmin, jmax, jmul, jsub, if_neg (ne_of_lt h), if_pos h]
    norm_num
  · subst h
    simp [smoothStep, jdivQ, jmin, jmax, jmul, jsub]
  · have hne : ¬ t - a = 0 := sub_ne_zero.mpr (ne_of_gt h)
    have hp : (0:ℚ) < t - a := sub_pos.mpr h
    simp only [smoothStep, jdivQ, sub_self, if_pos rfl, if_neg hne, if_pos hp,
      jmin, jmax, jmul, jsub, if_neg (ne_of_gt h), if_neg (lt_asymm h)]
    norm_num

/-! ## The `Uint8ClampedArray` byte store

Assignments `data[i] = v` into an `ImageData`'s `Uint8ClampedArray`
follow the ECMAScript `ToUint8Clamp` conversion: `NaN ↦ 0`, clamp to
`[0, 255]`, round to the nearest integer with ties to even. -/

/-- Round to the nearest integer, ties to even. -/
def roundTiesEven (q : ℚ) : ℤ :=
  let n := ⌊q⌋
  let f := q - n
  if f < 1/2 then n else if 1/2 < f then n + 1 else if 2 ∣ n then n else n + 1

/-- `ToUint8Clamp` of a finite number. -/
def q8round (q : ℚ) : ℕ :=
  if q ≤ 0 then 0 else if 255 ≤ q then 255 else (roundTiesEven q).toNat

/-- `ToUint8Clamp` of a JS value: `NaN` and `-Infinity` store `0`,
`+Infinity` stores `255`. -/
def jsToUint8Clamp : JVal → ℕ
  | .nan => 0
  | .negInf => 0
  | .posInf => 255
  | .num q => q8round q

theorem roundTiesEven_le (q : ℚ) : roundTiesEven q ≤ ⌊q⌋ + 1 := by
  simp only [roundTiesEven]
  split_ifs <;> omega

theorem le_roundTiesEven (q : ℚ) : ⌊q⌋ ≤ roundTiesEven q := by
  simp only [roundTiesEven]
  split_ifs <;> omega

/-- Every stored byte is in `[0, 255]`: clamping never wraps. -/
theorem q8round_le (q : ℚ) : q8round q ≤ 255 := by
  unfold q8round
  split_ifs with h0 h255
  · exact Nat.zero_le _
  · exact le_rfl
  · have hq : q < 255 := lt_of_not_le h255
    have hfl : ⌊q⌋ < 255 := Int.floor_lt.mpr (by exact_mod_cast hq)
    have h1 := roundTiesEven_le q
    omega

theorem jsToUint8Clamp_le (v : JVal) : jsToUint8Clamp v ≤ 255 := by
  cases v with
  | num q => exact q8round_le q
  | nan => exact Nat.zero_le _
  | posInf => exact le_rfl
  | negInf => exact Nat.zero_le _

/-! ## The sampling / encoding pipeline (`performShaderUpdate`)

`performShaderUpdate` in `core.ts` runs over the sample grid
`w = size.width * canvasDPI`, `h = size.height * canvasDPI`.  Pass one
walks the pixel index `i = 0, 4, 8, …` (so sample index `j = i / 4`,
coordinates `x = j % w`, `y = ⌊j / w⌋`, row-major), calls the fragment
at `{x/w, y/h}` with the mouse state, records `dx = pos.x*w - x`,
`dy = pos.y*h - y` and folds `maxScale = Math.max(maxScale, |dx|, |dy|)`;
afterwards `maxScale *= 0.5`.  Pass two stores, per sample,
`data[4j] = (dx/maxScale + 0.5) * 255`, `data[4j+1] = (dy/maxScale + 0.5) * 255`,
`data[4j+2] = 0`, `data[4j+3] = 255` through the clamped byte store, and
the `feDisplacementMap` scale attribute is set to
`maxScale * effects.displacementScale / canvasDPI`.

Fragments are modelled as functions `(uv, mouse) ↦ pos` with finite
(rational) values; the special JS values only arise in the encoding
division, where they are modelled exactly. -/

/-- The displacement sample the first pass computes at linear index `j`. -/
def dispAt (w h : ℕ) (frag : ℚ × ℚ → ℚ × ℚ → ℚ × ℚ) (mouse : ℚ × ℚ)
    (j : ℕ) : ℚ × ℚ :=
  let x : ℕ := j % w
  let y : ℕ := j / w
  let pos := frag ((x : ℚ) / w, (y : ℚ) / h) mouse
  (pos.1 * w - x, pos.2 * h - y)

/-- Result of the first (measuring) pass: the raw displacement list in
sample order and the running maximum. -/
structure PassResult where
  raw : List (ℚ × ℚ)
  maxScale : ℚ
deriving DecidableEq

/-- The first pass of `performShaderUpdate`: one fold over the sample
indices in source order, pushing `(dx, dy)` and folding the maximum. -/
def samplePass (w h : ℕ) (frag : ℚ × ℚ → ℚ × ℚ → ℚ × ℚ) (mouse : ℚ × ℚ) :
    PassResult :=
  (List.range (w * h)).foldl
    (fun acc j =>
      let x : ℕ := j % w
      let y : ℕ := j / w
      let pos := frag ((x : ℚ) / w, (y : ℚ) / h) mouse
      let dx := pos.1 * w - x
      let dy := pos.2 * h - y
      { raw := acc.raw ++ [(dx, dy)],
        maxScale := max acc.maxScale (max |dx| |dy|) })
    ⟨[], 0⟩

/-- One encoded channel byte: `(v / maxScale + 0.5) * 255` evaluated in
JS arithmetic, then stored through the clamped byte store. -/
def encodeByte (v maxScale : ℚ) : ℕ :=
  jsToUint8Clamp (jmul (jadd (jdivQ v maxScale) (.num (1/2))) (.num 255))

/-- What one recomputation hands to the compositor: the packed RGBA byte
buffer, the post-damping `maxScale`, and the value written to the
`feDisplacementMap` `scale` attribute. -/
structure UpdateResult where
  data : List ℕ
  maxMagnitude : ℚ
  scale : ℚ
deriving DecidableEq

/-- `performShaderUpdate` (numeric part): measure, damp by `0.5`, encode,
and compute the `scale` attribute
`maxScale * effects.displacementScale / canvasDPI`. -/
def performShaderUpdate (w h : ℕ) (frag : ℚ × ℚ → ℚ × ℚ → ℚ × ℚ)
    (mouse : ℚ × ℚ) (displacementScale canvasDPI : ℚ) : UpdateResult :=
  let pass := samplePass w h frag mouse
  let maxScale := pass.maxScale * (1/2)
  { data := pass.raw.flatMap
      (fun p => [encodeByte p.1 maxScale, encodeByte p.2 maxScale, 0, 255]),
    maxMagnitude := maxScale,
    scale := maxScale * displacementScale / canvasDPI }

/-- The absolute-component maximum contributed by sample `j`. -/
def sampleAbsMax (w h : ℕ) (frag : ℚ × ℚ → ℚ × ℚ → ℚ × ℚ)
    (mouse : ℚ × ℚ) (j : ℕ) : ℚ :=
  max |(dispAt w h frag mouse j).1| |(dispAt w h frag mouse j).2|

theorem samplePass_foldl (w h : ℕ) (frag : ℚ × ℚ → ℚ × ℚ → ℚ × ℚ)
    (mouse : ℚ × ℚ) (l : List ℕ) (r₀ : List (ℚ × ℚ)) (m₀ : ℚ) :
    l.foldl
      (fun acc j =>
        let x : ℕ := j % w
        let y : ℕ := j / w
        let pos := frag ((x : ℚ) / w, (y : ℚ) / h) mouse
        let dx := pos.1 * w - x
        let dy := pos.2 * h - y
        ({ raw := acc.raw ++ [(dx, dy)],
           maxScale := max acc.maxScale (max |dx| |dy|) } : PassResult))
      ⟨r₀, m₀⟩ =
    ⟨r₀ ++ l.map (dispAt w h frag mouse),
     l.foldl (fun m j => max m (sampleAbsMax w h frag mouse j)) m₀⟩ := by
  induction l generalizing r₀ m₀ with
  | nil => simp
  | cons a l ih =>
      simp only [List.foldl_cons, List.map_cons]
      rw [ih]
      simp [dispAt, sampleAbsMax]

/-- The measuring pass produces exactly the row-major displacement list
and the global absolute maximum. -/
theorem samplePass_eq (w h : ℕ) (frag : ℚ × ℚ → ℚ × ℚ → ℚ × ℚ)
    (mouse : ℚ × ℚ) :
    samplePass w h frag mouse =
      ⟨(List.range (w * h)).map (dispAt w h frag mouse),
       (List.range (w * h)).foldl
         (fun m j => max m (sampleAbsMax w h frag mouse j)) 0⟩ := by
  have := samplePass_foldl w h frag mouse (List.range (w * h)) [] 0
  simpa [samplePass] using this

/-- With a nonzero divisor the encoded byte is the clamped, rounded value
of `(v / maxScale + 1/2) * 255`. -/
theorem encodeByte_of_ne_zero (v maxScale : ℚ) (h : maxScale ≠ 0) :
    encodeByte v maxScale = q8round ((v / maxScale + 1/2) * 255) := by
  simp [encodeByte, jdivQ, if_neg h, jadd, jmul, jsToUint8Clamp]

/-- With a zero divisor and a zero numerator the division is `0/0 = NaN`,
which the byte store maps to `0`. -/
theorem encodeByte_zero_zero : encodeByte 0 0 = 0 := by
  simp [encodeByte, jdivQ, jadd, jmul, jsToUint8Clamp]

/-! ## The update scheduler and the `mouseUsed` flag

The mutable instance state of `LiquidGlassCore` that drives scheduling:
`mouse`, `mouseUsed`, `lastShaderUpdate`, `pendingShaderUpdate`, plus the
(at most one) timer armed by `setTimeout` — modelled by its absolute fire
time — and a log of completed recomputations, each recorded as
(time it ran, mouse state it read).

Fragments here carry the proxy instrumentation: the second component of
the result tells whether that invocation read a field of the mouse proxy
(`mouseUsed = true` on any `get`). -/

structure SchedState where
  mouse : ℚ × ℚ
  mouseUsed : Bool
  lastShaderUpdate : ℚ
  pendingShaderUpdate : Bool
  timerAt : Option ℚ
  log : List (ℚ × (ℚ × ℚ))
deriving DecidableEq

/-- Whether any of the `w*h` fragment invocations of one pass reads the
mouse proxy: `mouseUsed` is set to `false` before the loop and flipped to
`true` by the proxy's `get` trap, so after the pass it is the disjunction
over all samples. -/
def mouseUsedOf (w h : ℕ) (frag : ℚ × ℚ → ℚ × ℚ → (ℚ × ℚ) × Bool)
    (mouse : ℚ × ℚ) : Bool :=
  (List.range (w * h)).foldl
    (fun u j =>
      u || (frag (((j % w : ℕ) : ℚ) / w, ((j / w : ℕ) : ℚ) / h) mouse).2)
    false

/-- `performShaderUpdate`, scheduler-visible part: resets and recomputes
`mouseUsed`, runs one recomputation at time `t` against the current mouse
state. -/
def performShaderUpdateS (w h : ℕ)
    (frag : ℚ × ℚ → ℚ × ℚ → (ℚ × ℚ) × Bool) (t : ℚ) (s : SchedState) :
    SchedState :=
  { s with mouseUsed := mouseUsedOf w h frag s.mouse,
           log := s.log ++ [(t, s.mouse)] }

/-- `updateShader` called at time `t` (`now = performance.now()`):
if `now - lastShaderUpdate < 16` it either arms one deferred retry for
`16 - (now - lastShaderUpdate)` later (when none is pending) or does
nothing; otherwise it stamps `lastShaderUpdate = now` and recomputes. -/
def updateShaderAt (w h : ℕ) (frag : ℚ × ℚ → ℚ × ℚ → (ℚ × ℚ) × Bool)
    (t : ℚ) (s : SchedState) : SchedState :=
  if t - s.lastShaderUpdate < 16 then
    if s.pendingShaderUpdate then s
    else { s with pendingShaderUpdate := true,
                  timerAt := some (t + (16 - (t - s.lastShaderUpdate))) }
  else
    performShaderUpdateS w h frag t { s with lastShaderUpdate := t }

/-- The armed `setTimeout` callback firing: clears
`pendingShaderUpdate` and re-enters `updateShader` at the fire time. -/
def fireTimer (w h : ℕ) (frag : ℚ × ℚ → ℚ × ℚ → (ℚ × ℚ) × Bool)
    (s : SchedState) : SchedState :=
  match s.timerAt with
  | none => s
  | some tf =>
      updateShaderAt w h frag tf
        { s with pendingShaderUpdate := false, timerAt := none }

/-- One invalidation request at time `t` carrying the latest pointer
state `m`: the caller writes `mouse` and calls `updateShader` (the
shader-driven path of `handleMouseMove`). -/
def requestShaderUpdate (w h : ℕ)
    (frag : ℚ × ℚ → ℚ × ℚ → (ℚ × ℚ) × Bool) (t : ℚ) (m : ℚ × ℚ)
    (s : SchedState) : SchedState :=
  updateShaderAt w h frag t { s with mouse := m }

/-- `handleMouseMove`: always records the new mouse position; calls
`updateShader` only when `mouseUsed` is set. -/
def handleMouseMove (w h : ℕ)
    (frag : ℚ × ℚ → ℚ × ℚ → (ℚ × ℚ) × Bool) (t : ℚ) (m : ℚ × ℚ)
    (s : SchedState) : SchedState :=
  let s₁ := { s with mouse := m }
  if s₁.mouseUsed then updateShaderAt w h frag t s₁ else s₁

/-- While a retry is pending, a throttled request only records the mouse:
the entire scheduler state is otherwise unchanged. -/
theorem requestShaderUpdate_pending (w h : ℕ)
    (frag : ℚ × ℚ → ℚ × ℚ → (ℚ × ℚ) × Bool) (t : ℚ) (m : ℚ × ℚ)
    (s : SchedState) (hthr : t - s.lastShaderUpdate < 16)
    (hp : s.pendingShaderUpdate = true) :
    requestShaderUpdate w h frag t m s = { s with mouse := m } := by
  simp [requestShaderUpdate, updateShaderAt, hthr, hp]

theorem requests_while_pending (w h : ℕ)
    (frag : ℚ × ℚ → ℚ × ℚ → (ℚ × ℚ) × Bool) (t₀ : ℚ)
    (cs : List (ℚ × (ℚ × ℚ))) (s : SchedState)
    (hlast : s.lastShaderUpdate = t₀) (hp : s.pendingShaderUpdate = true)
    (hin : ∀ c ∈ cs, c.1 - t₀ < 16) :
    cs.foldl (fun s c => requestShaderUpdate w h frag c.1 c.2 s) s =
      { s with mouse := (cs.map Prod.snd).getLastD s.mouse } := by
  induction cs generalizing s with
  | nil => simp
  | cons c cs ih =>
      have hc : c.1 - s.lastShaderUpdate < 16 := by
        rw [hlast]; exact hin c (List.mem_cons_self c cs)
      rw [List.foldl_cons, requestShaderUpdate_pending w h frag c.1 c.2 s hc hp,
        ih { s with mouse := c.2 } hlast hp
          (fun c' hc' => hin c' (List.mem_cons_of_mem c hc'))]
      simp only [List.map_cons, List.getLastD_cons]

/-- When the last pass set `mouseUsed = false`, a mouse move only stores
the new position. -/
theorem handleMouseMove_unused (w h : ℕ)
    (frag : ℚ × ℚ → ℚ × ℚ → (ℚ × ℚ) × Bool) (t : ℚ) (m : ℚ × ℚ)
    (s : SchedState) (hu : s.mouseUsed = false) :
    handleMouseMove w h frag t m s = { s with mouse := m } := by
  simp [handleMouseMove, hu]

theorem mouseMoves_unused (w h : ℕ)
    (frag : ℚ × ℚ → ℚ × ℚ → (ℚ × ℚ) × Bool)
    (ms : List (ℚ × (ℚ × ℚ))) (s : SchedState) (hu : s.mouseUsed = false) :
    ms.foldl (fun s c => handleMouseMove w h frag c.1 c.2 s) s =
      { s with mouse := (ms.map Prod.snd).getLastD s.mouse } := by
  induction ms generalizing s with
  | nil => simp
  | cons c ms ih =>
      rw [List.foldl_cons, handleMouseMove_unused w h frag c.1 c.2 s hu,
        ih { s with mouse := c.2 } hu]
      simp only [List.map_cons, List.getLastD_cons]

/-! ## The built-in default fragment (`DEFAULT_CONFIG.fragment`)

It uses `Math.sqrt` through `roundedRectSDF`, so this part of the code is
embedded over `ℝ`.  The function reads only `uv` (its `mouse` parameter
is not even declared), centers the coordinate, takes the rounded-rect
signed distance with half-extents `0.3, 0.2` and radius `0.6`, and
softens through two `smoothStep`s.  The two `smoothStep` calls have
`edge0 ≠ edge1` and `ℝ` division is total, so the finite-valued form is
the faithful embedding here. -/

/-- `length` from `core.ts`. -/
noncomputable def length (x y : ℝ) : ℝ := Real.sqrt (x * x + y * y)

/-- `roundedRectSDF` from `core.ts`. -/
noncomputable def roundedRectSDF (x y width height radius : ℝ) : ℝ :=
  let qx := |x| - width + radius
  let qy := |y| - height + radius
  min (max qx qy) 0 + length (max qx 0) (max qy 0) - radius

/-- `smoothStep` on `ℝ`, for the in-range call sites of the default
fragment (`edge0 ≠ edge1`). -/
noncomputable def smoothStepR (a b t : ℝ) : ℝ :=
  let u := max 0 (min 1 ((t - a) / (b - a)))
  u * u * (3 - 2 * u)

/-- The softening factor `scaled` computed inside the default fragment. -/
noncomputable def fragmentScaled (uv : ℝ × ℝ) : ℝ :=
  let ix := uv.1 - 0.5
  let iy := uv.2 - 0.5
  let distanceToEdge := roundedRectSDF ix iy 0.3 0.2 0.6
  let displacement := smoothStepR 0.8 0 (distanceToEdge - 0.15)
  smoothStepR 0 1 displacement

/-- `DEFAULT_CONFIG.fragment`: returns
`texture(ix * scaled + 0.5, iy * scaled + 0.5)`. -/
noncomputable def fragment (uv : ℝ × ℝ) : ℝ × ℝ :=
  let ix := uv.1 - 0.5
  let iy := uv.2 - 0.5
  ((ix * fragmentScaled uv + 0.5), (iy * fragmentScaled uv + 0.5))

/-- The clamp inside `smoothStepR` keeps its value in `[0, 1]` for any
arguments with `edge0 ≠ edge1` (in fact for any real division result). -/
theorem smoothStepR_mem (a b t : ℝ) :
    0 ≤ smoothStepR a b t ∧ smoothStepR a b t ≤ 1 := by
  have he : smoothStepR a b t =
      max 0 (min 1 ((t - a) / (b - a))) * max 0 (min 1 ((t - a) / (b - a))) *
        (3 - 2 * max 0 (min 1 ((t - a) / (b - a)))) := rfl
  set u := max 0 (min 1 ((t - a) / (b - a))) with hu
  have h0 : 0 ≤ u := le_max_left _ _
  have h1 : u ≤ 1 := by
    rw [hu]; exact max_le (by norm_num) (min_le_left _ _)
  rw [he]
  constructor
  · have : (0:ℝ) < 3 - 2 * u := by linarith
    positivity
  · nlinarith [sq_nonneg (1 - u), mul_nonneg h0 (sq_nonneg (1 - u))]

/-! ## Claim theorems -/

theorem flatMap_congr_mem {α β : Type _} (l : List α) (f g : α → List β)
    (h : ∀ a ∈ l, f a = g a) : l.flatMap f = l.flatMap g := by
  induction l with
  | nil => rfl
  | cons a l ih =>
      rw [List.flatMap_cons, List.flatMap_cons, h a (List.mem_cons_self a l),
        ih (fun x hx => h x (List.mem_cons_of_mem a hx))]

theorem foldl_max_eq_zero (f : ℕ → ℚ) (l : List ℕ) (h : ∀ j ∈ l, f j = 0) :
    l.foldl (fun m j => max m (f j)) 0 = 0 := by
  induction l with
  | nil => rfl
  | cons a l ih =>
      rw [List.foldl_cons, h a (List.mem_cons_self a l), max_self]
      exact ih (fun j hj => h j (List.mem_cons_of_mem a hj))

/-- C2 (counterexample): `smoothStep(0, 0, 0)` evaluates `0/0`, which is
`NaN`, not a finite number — the degenerate division is not guarded. -/
theorem smoothStep_degenerate_counterexample :
    smoothStep 0 0 0 = JVal.nan ∧ (smoothStep 0 0 0).isFinite = false := by
  have h : smoothStep 0 0 0 = JVal.nan := by
    simp [smoothStep, jdivQ, jmin, jmax, jmul, jsub]
  exact ⟨h, by rw [h]; rfl⟩

/-- C8: for `a < b`, `smoothStep a b t` is a finite value monotone
non-decreasing in `t`, is exactly `0` for `t ≤ a`, exactly `1` for
`t ≥ b`, and `smoothStep 0 1 (1/2) = 1/2`. -/
theorem smoothStep_monotone_exact (a b t t₁ t₂ q₁ q₂ : ℚ) (hab : a < b) :
    (t₁ ≤ t₂ → smoothStep a b t₁ = .num q₁ → smoothStep a b t₂ = .num q₂ →
      q₁ ≤ q₂) ∧
    (t ≤ a → smoothStep a b t = .num 0) ∧
    (b ≤ t → smoothStep a b t = .num 1) ∧
    smoothStep 0 1 (1/2) = .num (1/2) := by
  have hne : a ≠ b := ne_of_lt hab
  refine ⟨?_, ?_, ?_, ?_⟩
  · intro h12 h1 h2
    rw [smoothStep_eq_ssQ a b t₁ hne] at h1
    rw [smoothStep_eq_ssQ a b t₂ hne] at h2
    have e1 : ssQ a b t₁ = q₁ := by injection h1
    have e2 : ssQ a b t₂ = q₂ := by injection h2
    rw [← e1, ← e2]
    exact ssQ_mono a b hab h12
  · intro ht
    rw [smoothStep_eq_ssQ a b t hne, ssQ_of_le_left a b t hab ht]
  · intro ht
    rw [smoothStep_eq_ssQ a b t hne, ssQ_of_ge_right a b t hab ht]
  · rw [smoothStep_eq_ssQ 0 1 (1/2) (by norm_num)]
    norm_num [ssQ, min_def, max_def]

/-- Witness for C8 at `a = 0`, `b = 1`. -/
theorem smoothStep_monotone_exact_witness :
    (0:ℚ) < 1 ∧ smoothStep 0 1 0 = .num 0 ∧ smoothStep 0 1 1 = .num 1 ∧
      smoothStep 0 1 (1/2) = .num (1/2) :=
  ⟨by norm_num,
   (smoothStep_monotone_exact 0 1 0 0 1 0 1 (by norm_num)).2.1 (by norm_num),
   (smoothStep_monotone_exact 0 1 1 0 1 0 1 (by norm_num)).2.2.1 (by norm_num),
   (smoothStep_monotone_exact 0 1 0 0 1 0 1 (by norm_num)).2.2.2⟩

/-- C1 (amended): with a warp that returns every coordinate unchanged,
every displacement is `0` and the measured (post-damping) `maxScale` is
`0`; the encoder division `dx / maxScale` is then `0/0 = NaN` (the code
does not guard it), and the clamped byte store maps `NaN` to `0`, so
every sample is stored as `R = G = 0` — not the neutral midpoint 127/128
— with `B = 0`, `A = 255`. -/
theorem zero_displacement_update (w h : ℕ) (mouse : ℚ × ℚ) (ds dpi : ℚ) :
    (performShaderUpdate w h (fun uv _ => uv) mouse ds dpi).maxMagnitude = 0 ∧
    jdivQ 0 0 = JVal.nan ∧
    (performShaderUpdate w h (fun uv _ => uv) mouse ds dpi).data =
      (List.range (w * h)).flatMap (fun _ => [0, 0, 0, 255]) := by
  have hdisp : ∀ j ∈ List.range (w * h),
      dispAt w h (fun uv _ => uv) mouse j = (0, 0) := by
    intro j hj
    have hj' : j < w * h := List.mem_range.mp hj
    have hw : (w : ℚ) ≠ 0 := by
      have : w ≠ 0 := by
        intro h0
        rw [h0, Nat.zero_mul] at hj'
        exact Nat.not_lt_zero j hj'
      exact_mod_cast this
    have hh : (h : ℚ) ≠ 0 := by
      have : h ≠ 0 := by
        intro h0
        rw [h0, Nat.mul_zero] at hj'
        exact Nat.not_lt_zero j hj'
      exact_mod_cast this
    simp only [dispAt, Prod.mk.injEq]
    constructor <;> rw [div_mul_cancel₀ _ (by assumption)] <;> ring
  have habs : ∀ j ∈ List.range (w * h),
      sampleAbsMax w h (fun uv _ => uv) mouse j = 0 := by
    intro j hj
    simp [sampleAbsMax, hdisp j hj]
  have hmax : (samplePass w h (fun uv _ => uv) mouse).maxScale = 0 := by
    rw [samplePass_eq]
    exact foldl_max_eq_zero _ _ habs
  refine ⟨?_, by simp [jdivQ], ?_⟩
  · show (samplePass w h (fun uv _ => uv) mouse).maxScale * (1/2) = 0
    rw [hmax, zero_mul]
  · show (samplePass w h (fun uv _ => uv) mouse).raw.flatMap _ = _
    have hraw : (samplePass w h (fun uv _ => uv) mouse).raw =
        (List.range (w * h)).map (dispAt w h (fun uv _ => uv) mouse) := by
      rw [samplePass_eq]
    rw [hraw, List.flatMap_map]
    refine flatMap_congr_mem _ _ _ (fun j hj => ?_)
    rw [hdisp j hj, hmax]
    simp only [zero_mul, encodeByte_zero_zero]

/-- C1 (counterexample): on a 1×1 grid with the identity warp the emitted
buffer is `[0, 0, 0, 255]`: neither `R` nor `G` is the neutral midpoint
127 or 128. -/
theorem zero_displacement_counterexample :
    (performShaderUpdate 1 1 (fun uv _ => uv) (1/2, 1/2) 1 1).data =
      [0, 0, 0, 255] ∧
    ¬ ((127 : ℕ) ∈ (performShaderUpdate 1 1 (fun uv _ => uv) (1/2, 1/2) 1 1).data ∨
       (128 : ℕ) ∈ (performShaderUpdate 1 1 (fun uv _ => uv) (1/2, 1/2) 1 1).data) := by
  have h : (performShaderUpdate 1 1 (fun uv _ => uv) (1/2, 1/2) 1 1).data =
      [0, 0, 0, 255] := by
    norm_num [performShaderUpdate, samplePass, List.range_succ, encodeByte,
      jdivQ, jadd, jmul, jsToUint8Clamp]
  refine ⟨h, ?_⟩
  rw [h]
  decide

/-- C4: the measuring pass visits every sample index `j` of the `w*h`
grid in row-major order (`x = j % w`, `y = j / w`), computing
`dx = pos.x*w - x`, `dy = pos.y*h - y` from `pos = frag (x/w, y/h) mouse`
(all recorded in `dispAt`); its `maxScale` is the fold of
`max m (max |dx| |dy|)` over the whole pass, and the recomputation's
final `maxMagnitude` is that maximum times the damping factor `0.5` —
all before any encoding (the encoder consumes `raw` and `maxMagnitude`). -/
theorem sampler_row_major_max (w h : ℕ) (frag : ℚ × ℚ → ℚ × ℚ → ℚ × ℚ)
    (mouse : ℚ × ℚ) (ds dpi : ℚ) :
    (samplePass w h frag mouse).raw =
      (List.range (w * h)).map (dispAt w h frag mouse) ∧
    (samplePass w h frag mouse).maxScale =
      (List.range (w * h)).foldl
        (fun m j => max m (sampleAbsMax w h frag mouse j)) 0 ∧
    (performShaderUpdate w h frag mouse ds dpi).maxMagnitude =
      (samplePass w h frag mouse).maxScale * (1/2) := by
  refine ⟨?_, ?_, rfl⟩ <;> rw [samplePass_eq]

/-- C3 (counterexample): with `displacementScale = 2`, `canvasDPI = 1`
and a warp displacing by one pixel, the post-damping `maxMagnitude` is
`1/2` but the delivered scale attribute is `1`. -/
theorem scale_attribute_counterexample :
    (performShaderUpdate 1 1 (fun _ _ => (1, 0)) (1/2, 1/2) 2 1).maxMagnitude
        = 1/2 ∧
    (performShaderUpdate 1 1 (fun _ _ => (1, 0)) (1/2, 1/2) 2 1).scale = 1 ∧
    (performShaderUpdate 1 1 (fun _ _ => (1, 0)) (1/2, 1/2) 2 1).scale ≠
      (performShaderUpdate 1 1 (fun _ _ => (1, 0)) (1/2, 1/2) 2 1).maxMagnitude := by
  have h1 : (performShaderUpdate 1 1 (fun _ _ => ((1:ℚ), (0:ℚ))) (1/2, 1/2) 2 1).maxMagnitude
      = 1/2 := by
    norm_num [performShaderUpdate, samplePass, List.range_succ]
  have h2 : (performShaderUpdate 1 1 (fun _ _ => ((1:ℚ), (0:ℚ))) (1/2, 1/2) 2 1).scale
      = 1 := by
    norm_num [performShaderUpdate, samplePass, List.range_succ]
  refine ⟨h1, h2, ?_⟩
  rw [h1, h2]
  norm_num

/-- C3 (amended): the single float delivered to the compositor as the
`feDisplacementMap` scale is the post-damping maximum multiplied by
`effects.displacementScale` and divided by `canvasDPI`; it equals the
post-damping `maxMagnitude` itself only when that ratio is 1 (as with
the defaults `displacementScale = 1`, `canvasDPI = 1`). -/
theorem scale_attribute_formula (w h : ℕ) (frag : ℚ × ℚ → ℚ × ℚ → ℚ × ℚ)
    (mouse : ℚ × ℚ) (ds dpi : ℚ) :
    (performShaderUpdate w h frag mouse ds dpi).scale =
      ((List.range (w * h)).foldl
          (fun m j => max m (sampleAbsMax w h frag mouse j)) 0) * (1/2)
        * ds / dpi ∧
    (performShaderUpdate w h frag mouse ds dpi).scale =
      (performShaderUpdate w h frag mouse ds dpi).maxMagnitude * ds / dpi := by
  constructor
  · show (samplePass w h frag mouse).maxScale * (1/2) * ds / dpi = _
    rw [samplePass_eq]
  · rfl

/-- C5: when the post-damping `maxMagnitude` is positive, the emitted
buffer packs each sample `j` (row-major) into 4 consecutive bytes:
`R = (dx/maxMagnitude + 0.5)*255` and `G = (dy/maxMagnitude + 0.5)*255`,
each clamped into `[0, 255]` by the byte store (`q8round`, which never
wraps), `B = 0` and `A = 255`; every byte of the buffer is `≤ 255`. -/
theorem encoder_packing (w h : ℕ) (frag : ℚ × ℚ → ℚ × ℚ → ℚ × ℚ)
    (mouse : ℚ × ℚ) (ds dpi : ℚ)
    (hpos : 0 < (performShaderUpdate w h frag mouse ds dpi).maxMagnitude) :
    (performShaderUpdate w h frag mouse ds dpi).data =
      (List.range (w * h)).flatMap (fun j =>
        [q8round (((dispAt w h frag mouse j).1 /
            (performShaderUpdate w h frag mouse ds dpi).maxMagnitude + 1/2)
            * 255),
         q8round (((dispAt w h frag mouse j).2 /
            (performShaderUpdate w h frag mouse ds dpi).maxMagnitude + 1/2)
            * 255),
         0, 255]) ∧
    ∀ b ∈ (performShaderUpdate w h frag mouse ds dpi).data, b ≤ 255 := by
  have hne : (performShaderUpdate w h frag mouse ds dpi).maxMagnitude ≠ 0 :=
    ne_of_gt hpos
  have hdata : (performShaderUpdate w h frag mouse ds dpi).data =
      (List.range (w * h)).flatMap (fun j =>
        [encodeByte (dispAt w h frag mouse j).1
            (performShaderUpdate w h frag mouse ds dpi).maxMagnitude,
         encodeByte (dispAt w h frag mouse j).2
            (performShaderUpdate w h frag mouse ds dpi).maxMagnitude,
         0, 255]) := by
    show (samplePass w h frag mouse).raw.flatMap _ = _
    have hraw : (samplePass w h frag mouse).raw =
        (List.range (w * h)).map (dispAt w h frag mouse) := by
      rw [samplePass_eq]
    rw [hraw, List.flatMap_map]
    rfl
  constructor
  · rw [hdata]
    refine flatMap_congr_mem _ _ _ (fun j hj => ?_)
    rw [encodeByte_of_ne_zero _ _ hne, encodeByte_of_ne_zero _ _ hne]
  · intro b hb
    rw [hdata] at hb
    rcases List.mem_flatMap.mp hb with ⟨j, hj, hbj⟩
    simp only [List.mem_cons, List.not_mem_nil, or_false] at hbj
    rcases hbj with rfl | rfl | rfl | rfl
    · exact jsToUint8Clamp_le _
    · exact jsToUint8Clamp_le _
    · exact Nat.zero_le 255
    · exact le_rfl

/-- Witness for C5 on a 1×1 grid with a one-pixel displacement
(`maxMagnitude = 1/2 > 0`). -/
theorem encoder_packing_witness :
    0 < (performShaderUpdate 1 1 (fun _ _ => ((1:ℚ), (0:ℚ)))
          (1/2, 1/2) 1 1).maxMagnitude ∧
    (performShaderUpdate 1 1 (fun _ _ => ((1:ℚ), (0:ℚ))) (1/2, 1/2) 1 1).data =
      (List.range (1 * 1)).flatMap (fun j =>
        [q8round (((dispAt 1 1 (fun _ _ => ((1:ℚ), (0:ℚ))) (1/2, 1/2) j).1 /
            (performShaderUpdate 1 1 (fun _ _ => ((1:ℚ), (0:ℚ)))
              (1/2, 1/2) 1 1).maxMagnitude + 1/2) * 255),
         q8round (((dispAt 1 1 (fun _ _ => ((1:ℚ), (0:ℚ))) (1/2, 1/2) j).2 /
            (performShaderUpdate 1 1 (fun _ _ => ((1:ℚ), (0:ℚ)))
              (1/2, 1/2) 1 1).maxMagnitude + 1/2) * 255),
         0, 255]) := by
  have hpos : 0 < (performShaderUpdate 1 1 (fun _ _ => ((1:ℚ), (0:ℚ)))
      (1/2, 1/2) 1 1).maxMagnitude := by
    norm_num [performShaderUpdate, samplePass, List.range_succ]
  exact ⟨hpos,
    (encoder_packing 1 1 (fun _ _ => ((1:ℚ), (0:ℚ))) (1/2, 1/2) 1 1 hpos).1⟩

theorem jdivQ_scale (k v ms : ℚ) (hk : 0 < k) :
    jdivQ (k * v) (k * ms) = jdivQ v ms := by
  have hk' : k ≠ 0 := ne_of_gt hk
  rcases eq_or_ne ms 0 with h | h
  · subst h
    rw [mul_zero]
    unfold jdivQ
    rcases lt_trichotomy v 0 with hv | hv | hv
    · have h1 : k * v < 0 := mul_neg_of_pos_of_neg hk hv
      rw [if_pos rfl, if_pos rfl, if_neg (ne_of_lt h1),
        if_neg (not_lt.mpr (le_of_lt h1)), if_neg (ne_of_lt hv),
        if_neg (not_lt.mpr (le_of_lt hv))]
    · rw [hv, mul_zero]
    · have h1 : 0 < k * v := mul_pos hk hv
      rw [if_pos rfl, if_pos rfl, if_neg (ne_of_gt h1), if_pos h1,
        if_neg (ne_of_gt hv), if_pos hv]
  · have h2 : k * ms ≠ 0 := mul_ne_zero hk' h
    unfold jdivQ
    rw [if_neg h2, if_neg h, mul_div_mul_left v ms hk']

theorem encodeByte_scale (k v ms : ℚ) (hk : 0 < k) :
    encodeByte (k * v) (k * ms) = encodeByte v ms := by
  unfold encodeByte
  rw [jdivQ_scale k v ms hk]

theorem foldl_max_scale (k : ℚ) (hk : 0 ≤ k) (f g : ℕ → ℚ) (l : List ℕ)
    (h : ∀ j ∈ l, g j = k * f j) (m : ℚ) :
    l.foldl (fun m j => max m (g j)) (k * m) =
      k * l.foldl (fun m j => max m (f j)) m := by
  induction l generalizing m with
  | nil => rfl
  | cons a l ih =>
      rw [List.foldl_cons, List.foldl_cons, h a (List.mem_cons_self a l)]
      have hmax : max (k * m) (k * f a) = k * max m (f a) := by
        rw [mul_comm k m, mul_comm k (f a), mul_comm k (max m (f a)),
          ← max_mul_of_nonneg _ _ hk]
      rw [hmax]
      exact ih (fun j hj => h j (List.mem_cons_of_mem a hj)) (max m (f a))

/-- C9: if every displacement sample of `frag'` is `k` times the
corresponding sample of `frag` (`k > 0`), the post-damping `maxMagnitude`
and the delivered scale both change by exactly the factor `k`, and the
encoded byte buffer is unchanged sample-for-sample. -/
theorem scale_invariance (w h : ℕ)
    (frag frag' : ℚ × ℚ → ℚ × ℚ → ℚ × ℚ) (mouse : ℚ × ℚ) (ds dpi k : ℚ)
    (hk : 0 < k)
    (hs : ∀ j ∈ List.range (w * h),
      dispAt w h frag' mouse j =
        (k * (dispAt w h frag mouse j).1, k * (dispAt w h frag mouse j).2)) :
    (performShaderUpdate w h frag' mouse ds dpi).maxMagnitude =
      k * (performShaderUpdate w h frag mouse ds dpi).maxMagnitude ∧
    (performShaderUpdate w h frag' mouse ds dpi).scale =
      k * (performShaderUpdate w h frag mouse ds dpi).scale ∧
    (performShaderUpdate w h frag' mouse ds dpi).data =
      (performShaderUpdate w h frag mouse ds dpi).data := by
  have habs : ∀ j ∈ List.range (w * h),
      sampleAbsMax w h frag' mouse j = k * sampleAbsMax w h frag mouse j := by
    intro j hj
    unfold sampleAbsMax
    rw [hs j hj]
    simp only
    rw [abs_mul, abs_mul, abs_of_pos hk]
    rw [mul_comm k |(dispAt w h frag mouse j).1|,
      mul_comm k |(dispAt w h frag mouse j).2|,
      mul_comm k (max |(dispAt w h frag mouse j).1| |(dispAt w h frag mouse j).2|),
      ← max_mul_of_nonneg _ _ (le_of_lt hk)]
  have hmaxS : (samplePass w h frag' mouse).maxScale =
      k * (samplePass w h frag mouse).maxScale := by
    rw [samplePass_eq, samplePass_eq]
    simp only
    have hfold := foldl_max_scale k (le_of_lt hk)
      (sampleAbsMax w h frag mouse) (sampleAbsMax w h frag' mouse)
      (List.range (w * h)) habs 0
    rw [mul_zero] at hfold
    exact hfold
  have hmm : (performShaderUpdate w h frag' mouse ds dpi).maxMagnitude =
      k * (performShaderUpdate w h frag mouse ds dpi).maxMagnitude := by
    show (samplePass w h frag' mouse).maxScale * (1/2) =
      k * ((samplePass w h frag mouse).maxScale * (1/2))
    rw [hmaxS]; ring
  refine ⟨hmm, ?_, ?_⟩
  · show (samplePass w h frag' mouse).maxScale * (1/2) * ds / dpi =
      k * ((samplePass w h frag mouse).maxScale * (1/2) * ds / dpi)
    rw [hmaxS]; ring
  · show (samplePass w h frag' mouse).raw.flatMap _ =
      (samplePass w h frag mouse).raw.flatMap _
    have hraw : (samplePass w h frag' mouse).raw =
        (List.range (w * h)).map (dispAt w h frag' mouse) := by
      rw [samplePass_eq]
    have hraw2 : (samplePass w h frag mouse).raw =
        (List.range (w * h)).map (dispAt w h frag mouse) := by
      rw [samplePass_eq]
    rw [hraw, hraw2, List.flatMap_map, List.flatMap_map]
    refine flatMap_congr_mem _ _ _ (fun j hj => ?_)
    have hmsd : (samplePass w h frag' mouse).maxScale * (1/2) =
        k * ((samplePass w h frag mouse).maxScale * (1/2)) := by
      rw [hmaxS]; ring
    rw [hs j hj, hmsd]
    simp only
    rw [encodeByte_scale k _ _ hk, encodeByte_scale k _ _ hk]

/-- Witness for C9 on a 1×1 grid with `k = 2`. -/
theorem scale_invariance_witness :
    (0:ℚ) < 2 ∧
    (performShaderUpdate 1 1 (fun _ _ => ((2:ℚ), (0:ℚ))) (1/2, 1/2) 1 1).maxMagnitude =
      2 * (performShaderUpdate 1 1 (fun _ _ => ((1:ℚ), (0:ℚ))) (1/2, 1/2) 1 1).maxMagnitude ∧
    (performShaderUpdate 1 1 (fun _ _ => ((2:ℚ), (0:ℚ))) (1/2, 1/2) 1 1).data =
      (performShaderUpdate 1 1 (fun _ _ => ((1:ℚ), (0:ℚ))) (1/2, 1/2) 1 1).data := by
  have hk : (0:ℚ) < 2 := by norm_num
  have hs : ∀ j ∈ List.range (1 * 1),
      dispAt 1 1 (fun _ _ => ((2:ℚ), (0:ℚ))) (1/2, 1/2) j =
        (2 * (dispAt 1 1 (fun _ _ => ((1:ℚ), (0:ℚ))) (1/2, 1/2) j).1,
         2 * (dispAt 1 1 (fun _ _ => ((1:ℚ), (0:ℚ))) (1/2, 1/2) j).2) := by
    intro j hj
    rcases List.mem_range.mp hj with _
    interval_cases j
    · norm_num [dispAt]
  have H := scale_invariance 1 1 (fun _ _ => ((1:ℚ), (0:ℚ)))
    (fun _ _ => ((2:ℚ), (0:ℚ))) (1/2, 1/2) 1 1 2 hk hs
  exact ⟨hk, H.1, H.2.2⟩

theorem getLast_cons_snd {α β : Type _} (c : α × β) (cs : List (α × β))
    (hh : c :: cs ≠ []) :
    ((c :: cs).getLast hh).2 = (cs.map Prod.snd).getLastD c.2 := by
  induction cs generalizing c with
  | nil => rfl
  | cons d ds ih =>
      rw [List.getLast_cons (List.cons_ne_nil d ds), List.map_cons,
        List.getLastD_cons]
      exact ih d (List.cons_ne_nil d ds)

/-- C6: starting from an idle scheduler whose last recomputation finished
at `t₀`, any burst of `N ≥ 1` requests all arriving within the 16 ms
throttle window (i) completes no recomputation during the burst, (ii)
arms exactly one deferred retry, for the absolute time `t₀ + 16` (set by
the first throttled call; later calls are no-ops beyond updating the
mouse — see `requestShaderUpdate_pending`), and (iii) when the retry
fires, exactly one recomputation runs, at `t₀ + 16` (one full interval
after the previous one), using the mouse state of the last request
(trailing semantics). -/
theorem throttle_coalesce (w h : ℕ)
    (frag : ℚ × ℚ → ℚ × ℚ → (ℚ × ℚ) × Bool) (t₀ : ℚ) (s₀ sF : SchedState)
    (cs : List (ℚ × (ℚ × ℚ)))
    (hlast : s₀.lastShaderUpdate = t₀)
    (hp : s₀.pendingShaderUpdate = false)
    (hne : cs ≠ [])
    (hin : ∀ c ∈ cs, c.1 - t₀ < 16)
    (hsF : sF = cs.foldl (fun s c => requestShaderUpdate w h frag c.1 c.2 s) s₀) :
    sF.log = s₀.log ∧ sF.pendingShaderUpdate = true ∧
    sF.timerAt = some (t₀ + 16) ∧ sF.mouse = (cs.getLast hne).2 ∧
    (fireTimer w h frag sF).log = s₀.log ++ [(t₀ + 16, (cs.getLast hne).2)] ∧
    (fireTimer w h frag sF).pendingShaderUpdate = false ∧
    (fireTimer w h frag sF).lastShaderUpdate = t₀ + 16 := by
  obtain ⟨c, cs', rfl⟩ := List.exists_cons_of_ne_nil hne
  have hc : c.1 - t₀ < 16 := hin c (List.mem_cons_self c cs')
  have hs₁ : requestShaderUpdate w h frag c.1 c.2 s₀ =
      ⟨c.2, s₀.mouseUsed, s₀.lastShaderUpdate, true, some (t₀ + 16), s₀.log⟩ := by
    unfold requestShaderUpdate updateShaderAt
    dsimp only
    rw [hlast, hp, if_pos hc, if_neg Bool.false_ne_true,
      show c.1 + (16 - (c.1 - t₀)) = t₀ + 16 from by ring]
  have hrest := requests_while_pending w h frag t₀ cs'
    ⟨c.2, s₀.mouseUsed, s₀.lastShaderUpdate, true, some (t₀ + 16), s₀.log⟩
    hlast rfl (fun c' hc' => hin c' (List.mem_cons_of_mem c hc'))
  have hsF' : sF =
      ⟨(cs'.map Prod.snd).getLastD c.2, s₀.mouseUsed, s₀.lastShaderUpdate,
       true, some (t₀ + 16), s₀.log⟩ := by
    rw [hsF, List.foldl_cons, hs₁, hrest]
  have hfire : fireTimer w h frag
      ⟨(cs'.map Prod.snd).getLastD c.2, s₀.mouseUsed, s₀.lastShaderUpdate,
       true, some (t₀ + 16), s₀.log⟩ =
      ⟨(cs'.map Prod.snd).getLastD c.2,
       mouseUsedOf w h frag ((cs'.map Prod.snd).getLastD c.2),
       t₀ + 16, false, none,
       s₀.log ++ [(t₀ + 16, (cs'.map Prod.snd).getLastD c.2)]⟩ := by
    unfold fireTimer
    dsimp only
    unfold updateShaderAt
    dsimp only
    rw [hlast,
      if_neg (by rw [show t₀ + 16 - t₀ = (16:ℚ) from by ring]; norm_num)]
    rfl
  rw [hsF', getLast_cons_snd c cs' hne, hfire]
  exact ⟨rfl, rfl, rfl, rfl, rfl, rfl, rfl⟩

/-- Witness for C6: two requests at `t = 5` and `t = 10` inside the
window after a recomputation at `t₀ = 0`; the deferred retry fires at
`t = 16` with the second request's mouse state. -/
theorem throttle_coalesce_witness :
    (⟨(3/4, 1/4), false, 0, true, some ((0:ℚ) + 16), []⟩ : SchedState).log =
      (⟨(1/2, 1/2), false, 0, false, none, []⟩ : SchedState).log ∧
    (⟨(3/4, 1/4), false, 0, true, some ((0:ℚ) + 16), []⟩ :
        SchedState).pendingShaderUpdate = true ∧
    (⟨(3/4, 1/4), false, 0, true, some ((0:ℚ) + 16), []⟩ :
        SchedState).timerAt = some ((0:ℚ) + 16) ∧
    (⟨(3/4, 1/4), false, 0, true, some ((0:ℚ) + 16), []⟩ : SchedState).mouse =
      (([((5:ℚ), ((1:ℚ)/4, (1:ℚ)/4)), ((10:ℚ), ((3:ℚ)/4, (1:ℚ)/4))]).getLast
        (List.cons_ne_nil _ _)).2 ∧
    (fireTimer 1 1 (fun _ _ => (((0:ℚ), (0:ℚ)), false))
        ⟨(3/4, 1/4), false, 0, true, some ((0:ℚ) + 16), []⟩).log =
      (⟨(1/2, 1/2), false, 0, false, none, []⟩ : SchedState).log ++
        [((0:ℚ) + 16,
          (([((5:ℚ), ((1:ℚ)/4, (1:ℚ)/4)), ((10:ℚ), ((3:ℚ)/4, (1:ℚ)/4))]).getLast
            (List.cons_ne_nil _ _)).2)] ∧
    (fireTimer 1 1 (fun _ _ => (((0:ℚ), (0:ℚ)), false))
        ⟨(3/4, 1/4), false, 0, true, some ((0:ℚ) + 16), []⟩).pendingShaderUpdate
      = false ∧
    (fireTimer 1 1 (fun _ _ => (((0:ℚ), (0:ℚ)), false))
        ⟨(3/4, 1/4), false, 0, true, some ((0:ℚ) + 16), []⟩).lastShaderUpdate
      = (0:ℚ) + 16 := by
  have hsF : (⟨(3/4, 1/4), false, 0, true, some ((0:ℚ) + 16), []⟩ : SchedState) =
      [((5:ℚ), ((1:ℚ)/4, (1:ℚ)/4)), ((10:ℚ), ((3:ℚ)/4, (1:ℚ)/4))].foldl
        (fun s c =>
          requestShaderUpdate 1 1 (fun _ _ => (((0:ℚ), (0:ℚ)), false)) c.1 c.2 s)
        ⟨(1/2, 1/2), false, 0, false, none, []⟩ := by
    norm_num [requestShaderUpdate, updateShaderAt]
  exact throttle_coalesce 1 1 (fun _ _ => (((0:ℚ), (0:ℚ)), false)) 0
    ⟨(1/2, 1/2), false, 0, false, none, []⟩
    ⟨(3/4, 1/4), false, 0, true, some ((0:ℚ) + 16), []⟩
    [((5:ℚ), ((1:ℚ)/4, (1:ℚ)/4)), ((10:ℚ), ((3:ℚ)/4, (1:ℚ)/4))]
    rfl rfl (List.cons_ne_nil _ _) (by norm_num) hsF

/-- C7: `performShaderUpdate` resets `mouseUsed` at the start of each
pass and sets it exactly when some fragment invocation of that pass read
a mouse-proxy field (first conjunct, which holds whatever the flag's
previous value was); if the pass read no pointer field, any sequence of
subsequent pointer movements only records positions — no recomputation
is ever triggered (the log, the pending flag and the armed timer are all
unchanged). -/
theorem mouseUsed_gates_recompute (w h : ℕ)
    (frag : ℚ × ℚ → ℚ × ℚ → (ℚ × ℚ) × Bool) (t : ℚ) (s s₁ sF : SchedState)
    (ms : List (ℚ × (ℚ × ℚ)))
    (hs₁ : s₁ = performShaderUpdateS w h frag t s)
    (hunused : mouseUsedOf w h frag s.mouse = false)
    (hsF : sF = ms.foldl (fun s c => handleMouseMove w h frag c.1 c.2 s) s₁) :
    s₁.mouseUsed = mouseUsedOf w h frag s.mouse ∧
    sF.log = s₁.log ∧
    sF.pendingShaderUpdate = s₁.pendingShaderUpdate ∧
    sF.timerAt = s₁.timerAt := by
  have h1 : s₁.mouseUsed = mouseUsedOf w h frag s.mouse := by
    rw [hs₁]; rfl
  have hu : s₁.mouseUsed = false := h1.trans hunused
  have hfold := mouseMoves_unused w h frag ms s₁ hu
  rw [hsF, hfold]
  exact ⟨h1, rfl, rfl, rfl⟩

/-- Witness for C7: a fragment that never reads the mouse proxy; the
previous pass had `mouseUsed = true`, the pass resets it to `false`, and
a later mouse move triggers nothing. -/
theorem mouseUsed_gates_recompute_witness :
    (⟨(1/2, 1/2), false, 0, false, none,
        [((20:ℚ), ((1:ℚ)/2, (1:ℚ)/2))]⟩ : SchedState).mouseUsed =
      mouseUsedOf 1 1 (fun uv _ => (uv, false))
        (⟨(1/2, 1/2), true, 0, false, none, []⟩ : SchedState).mouse ∧
    (⟨(0, 0), false, 0, false, none,
        [((20:ℚ), ((1:ℚ)/2, (1:ℚ)/2))]⟩ : SchedState).log =
      (⟨(1/2, 1/2), false, 0, false, none,
        [((20:ℚ), ((1:ℚ)/2, (1:ℚ)/2))]⟩ : SchedState).log ∧
    (⟨(0, 0), false, 0, false, none,
        [((20:ℚ), ((1:ℚ)/2, (1:ℚ)/2))]⟩ : SchedState).pendingShaderUpdate =
      (⟨(1/2, 1/2), false, 0, false, none,
        [((20:ℚ), ((1:ℚ)/2, (1:ℚ)/2))]⟩ : SchedState).pendingShaderUpdate ∧
    (⟨(0, 0), false, 0, false, none,
        [((20:ℚ), ((1:ℚ)/2, (1:ℚ)/2))]⟩ : SchedState).timerAt =
      (⟨(1/2, 1/2), false, 0, false, none,
        [((20:ℚ), ((1:ℚ)/2, (1:ℚ)/2))]⟩ : SchedState).timerAt := by
  have hunused : mouseUsedOf 1 1 (fun uv _ => (uv, false))
      (⟨(1/2, 1/2), true, 0, false, none, []⟩ : SchedState).mouse = false := by
    norm_num [mouseUsedOf, List.range_succ]
  have hs₁ : (⟨(1/2, 1/2), false, 0, false, none,
      [((20:ℚ), ((1:ℚ)/2, (1:ℚ)/2))]⟩ : SchedState) =
      performShaderUpdateS 1 1 (fun uv _ => (uv, false)) 20
        ⟨(1/2, 1/2), true, 0, false, none, []⟩ := by
    rw [performShaderUpdateS, hunused]
    rfl
  have hsF : (⟨(0, 0), false, 0, false, none,
      [((20:ℚ), ((1:ℚ)/2, (1:ℚ)/2))]⟩ : SchedState) =
      [((30:ℚ), ((0:ℚ), (0:ℚ)))].foldl
        (fun s c => handleMouseMove 1 1 (fun uv _ => (uv, false)) c.1 c.2 s)
        ⟨(1/2, 1/2), false, 0, false, none,
          [((20:ℚ), ((1:ℚ)/2, (1:ℚ)/2))]⟩ := by
    norm_num [handleMouseMove]
  exact mouseUsed_gates_recompute 1 1 (fun uv _ => (uv, false)) 20
    ⟨(1/2, 1/2), true, 0, false, none, []⟩
    ⟨(1/2, 1/2), false, 0, false, none, [((20:ℚ), ((1:ℚ)/2, (1:ℚ)/2))]⟩
    ⟨(0, 0), false, 0, false, none, [((20:ℚ), ((1:ℚ)/2, (1:ℚ)/2))]⟩
    [((30:ℚ), ((0:ℚ), (0:ℚ)))] hs₁ hunused hsF

theorem affine_half_bounds (x s : ℝ) (hx0 : 0 ≤ x) (hx1 : x ≤ 1)
    (hs0 : 0 ≤ s) (hs1 : s ≤ 1) :
    0 ≤ (x - 0.5) * s + 0.5 ∧ (x - 0.5) * s + 0.5 ≤ 1 ∧
    min x 0.5 ≤ (x - 0.5) * s + 0.5 ∧ (x - 0.5) * s + 0.5 ≤ max x 0.5 := by
  have h1 : 0 ≤ (x - 0.5) * s + 0.5 := by nlinarith [mul_nonneg hx0 hs0]
  have h2 : (x - 0.5) * s + 0.5 ≤ 1 := by
    nlinarith [mul_nonneg (sub_nonneg.mpr hx1) hs0]
  refine ⟨h1, h2, ?_, ?_⟩
  · rcases le_total x 0.5 with hx | hx
    · rw [min_eq_left hx]
      nlinarith [mul_nonneg (sub_nonneg.mpr hx) (sub_nonneg.mpr hs1)]
    · rw [min_eq_right hx]
      nlinarith [mul_nonneg (sub_nonneg.mpr hx) hs0]
  · rcases le_total x 0.5 with hx | hx
    · rw [max_eq_right hx]
      nlinarith [mul_nonneg (sub_nonneg.mpr hx) hs0]
    · rw [max_eq_left hx]
      nlinarith [mul_nonneg (sub_nonneg.mpr hx) (sub_nonneg.mpr hs1)]

/-- C10: for an input coordinate in `[0,1] × [0,1]`, the default
fragment's softening factor `scaled` lies in `[0,1]`, so each output
component lies in `[0,1]`, between the input component and the
center value `0.5`. -/
theorem default_fragment_bounds (uv : ℝ × ℝ)
    (h10 : 0 ≤ uv.1) (h11 : uv.1 ≤ 1) (h20 : 0 ≤ uv.2) (h21 : uv.2 ≤ 1) :
    0 ≤ fragmentScaled uv ∧ fragmentScaled uv ≤ 1 ∧
    0 ≤ (fragment uv).1 ∧ (fragment uv).1 ≤ 1 ∧
    0 ≤ (fragment uv).2 ∧ (fragment uv).2 ≤ 1 ∧
    min uv.1 0.5 ≤ (fragment uv).1 ∧ (fragment uv).1 ≤ max uv.1 0.5 ∧
    min uv.2 0.5 ≤ (fragment uv).2 ∧ (fragment uv).2 ≤ max uv.2 0.5 := by
  have hs : 0 ≤ fragmentScaled uv ∧ fragmentScaled uv ≤ 1 :=
    smoothStepR_mem 0 1 _
  have hf1 : (fragment uv).1 = (uv.1 - 0.5) * fragmentScaled uv + 0.5 := rfl
  have hf2 : (fragment uv).2 = (uv.2 - 0.5) * fragmentScaled uv + 0.5 := rfl
  have b1 := affine_half_bounds uv.1 (fragmentScaled uv) h10 h11 hs.1 hs.2
  have b2 := affine_half_bounds uv.2 (fragmentScaled uv) h20 h21 hs.1 hs.2
  rw [hf1, hf2]
  exact ⟨hs.1, hs.2, b1.1, b1.2.1, b2.1, b2.2.1, b1.2.2.1, b1.2.2.2,
    b2.2.2.1, b2.2.2.2⟩

/-- Witness for C10 at the center `uv = (1/2, 1/2)`. -/
theorem default_fragment_bounds_witness :
    0 ≤ fragmentScaled ((1:ℝ)/2, (1:ℝ)/2) ∧
    fragmentScaled ((1:ℝ)/2, (1:ℝ)/2) ≤ 1 ∧
    0 ≤ (fragment ((1:ℝ)/2, (1:ℝ)/2)).1 ∧
    (fragment ((1:ℝ)/2, (1:ℝ)/2)).1 ≤ 1 ∧
    0 ≤ (fragment ((1:ℝ)/2, (1:ℝ)/2)).2 ∧
    (fragment ((1:ℝ)/2, (1:ℝ)/2)).2 ≤ 1 ∧
    min ((1:ℝ)/2) 0.5 ≤ (fragment ((1:ℝ)/2, (1:ℝ)/2)).1 ∧
    (fragment ((1:ℝ)/2, (1:ℝ)/2)).1 ≤ max ((1:ℝ)/2) 0.5 ∧
    min ((1:ℝ)/2) 0.5 ≤ (fragment ((1:ℝ)/2, (1:ℝ)/2)).2 ∧
    (fragment ((1:ℝ)/2, (1:ℝ)/2)).2 ≤ max ((1:ℝ)/2) 0.5 :=
  default_fragment_bounds ((1:ℝ)/2, (1:ℝ)/2)
    (by norm_num) (by norm_num) (by norm_num) (by norm_num)
